import Mathlib

/-!
Shallow embedding of the `sahdev77/travel-agent` Go service
(`src/main.go`, `src/tools.go`, `src/prompts.go`) and proofs about it.

The service is an HTTP gateway that decodes `{"userQuery": "..."}` request
bodies, runs a Genkit flow that delegates to an external model collaborator,
and exposes two deterministic tool stubs (flight search, hotel suggestion).

Go standard-library behaviour that the repository relies on but does not
implement (`encoding/json` decoding and encoding, `http.Error`) is modelled
explicitly below, faithful to the documented semantics of those functions.
-/

namespace TravelAgent

/-! ## Tool stubs (src/tools.go)

Both tools are Go closures of type `func(ctx, input) (string, error)`; the
`error` component is embedded as `Except String String` (the `ok` branch is
the string result, the `error` branch the Go error). Neither tool ever takes
the error branch in the source. The `log.Printf` side effect has no bearing
on the returned value and is not modelled.
-/

/-- The apostrophe character (code point 39), used in the source message
strings. -/
def apos : String := String.mk [Char.ofNat 39]

/-- Modelled from the spec: one character of `strings.ToLower` (Go stdlib,
not under src/), which applies the Unicode simple lowercase mapping. The
embedding folds the ASCII letters and the only two code points outside
ASCII whose simple lowercase mapping lands inside ASCII: U+0130, Latin
capital I with dot above, whose simple mapping is the plain `i` (code
105), and U+212A, the Kelvin sign, whose mapping is `k`. Every other code
point maps under the full Unicode table either to itself or to another
code point outside ASCII, and is left unchanged here; that difference
can never flip an equality test against an all-ASCII string such as the
switch keys of the hotel tool, so this embedding decides those tests
exactly as the Go function does. -/
def goLowerChar (c : Char) : Char :=
  if 65 ≤ c.toNat ∧ c.toNat ≤ 90 then Char.ofNat (c.toNat + 32)
  else if c.toNat = 304 then Char.ofNat 105
  else if c.toNat = 8490 then 'k'
  else c

/-- Model of `strings.ToLower` as used in `suggestHotelTool` (src/tools.go
line 50): character-wise application of the simple lowercase mapping. -/
def toLowerGo (s : String) : String := String.mk (s.data.map goLowerChar)

/-- `searchFlightsTool` body (src/tools.go lines 33-36):
`fmt.Sprintf("Found flights from %s to %s. A non-stop flight is available
for $550.", input.Departure, input.Arrival)`, returned with a nil error. -/
def searchFlights (departure arrival : String) : Except String String :=
  .ok ("Found flights from " ++ departure ++ " to " ++ arrival ++
    ". A non-stop flight is available for $550.")

/-- The hotel answer for the `"london"` switch case (src/tools.go line 52). -/
def savoyMsg : String :=
  "The Savoy is a highly-rated luxury hotel with excellent reviews."

/-- The hotel answer for the `"tokyo"` switch case (src/tools.go line 54). -/
def parkHyattMsg : String :=
  "The Park Hyatt is a great choice with stunning city views."

/-- The `default` switch case of the hotel tool (src/tools.go line 56): the
apology message `fmt.Sprintf` interpolates the destination into ("I\x27m
sorry, I don\x27t have a specific hotel recommendation for %s."). -/
def hotelFallback (destination : String) : String :=
  "I" ++ apos ++ "m sorry, I don" ++ apos ++
    "t have a specific hotel recommendation for " ++ destination ++ "."

/-- `suggestHotelTool` body (src/tools.go lines 48-57): a `switch` on
`strings.ToLower(input.Destination)` with cases `"london"`, `"tokyo"` and a
default, always returning a nil error. -/
def suggestHotel (destination : String) : Except String String :=
  if toLowerGo destination = "london" then .ok savoyMsg
  else if toLowerGo destination = "tokyo" then .ok parkHyattMsg
  else .ok (hotelFallback destination)

/-! ## Prompt rendering (src/prompts.go) -/

/-- The flow input struct `TravelAgentInput` (src/main.go lines 22-26):
a single string field with JSON tag `userQuery`. -/
structure TravelAgentInput where
  userQuery : String
deriving DecidableEq, Repr

/-- The fixed user-text template of the prompt (src/prompts.go line 50):
the prefix ("The user\x27s request is: ") that `fmt.Sprintf` puts before
the query. -/
def promptPreamble : String := "The user" ++ apos ++ "s request is: "

/-- The `WithPromptFn` closure (src/prompts.go lines 49-51): `fmt.Sprintf`
applies the fixed template to `input.(TravelAgentInput).UserQuery`, and the
closure returns a nil error; embedded like the tools as `Except`. -/
def promptFn (input : TravelAgentInput) : Except String String :=
  .ok (promptPreamble ++ input.userQuery)

/-! ## Substring containment

Executable substring test used to state the "output contains ..."
properties. `beginsWith p l` checks that `p` is an initial segment of `l`;
`hasSub p l` checks that `p` occurs contiguously somewhere in `l`.
-/

def beginsWith : List Char → List Char → Bool
  | [], _ => true
  | _ :: _, [] => false
  | p :: ps, c :: cs => p == c && beginsWith ps cs

def hasSub (p : List Char) : List Char → Bool
  | [] => p.isEmpty
  | c :: cs => beginsWith p (c :: cs) || hasSub p cs

/-- `strContains s pat` holds when `pat` occurs contiguously in `s`. -/
def strContains (s pat : String) : Bool := hasSub pat.data s.data

theorem beginsWith_append_self (p r : List Char) :
    beginsWith p (p ++ r) = true := by
  induction p with
  | nil => rfl
  | cons c cs ih => simp [beginsWith, ih]

theorem hasSub_self_append (p r : List Char) : hasSub p (p ++ r) = true := by
  cases p with
  | nil =>
    cases r with
    | nil => rfl
    | cons c cs => simp [hasSub, beginsWith]
  | cons c cs =>
    simp only [List.cons_append, hasSub, Bool.or_eq_true]
    exact Or.inl (beginsWith_append_self (c :: cs) r)

theorem hasSub_append_left (p l t : List Char) (h : hasSub p t = true) :
    hasSub p (l ++ t) = true := by
  induction l with
  | nil => simpa using h
  | cons c cs ih =>
    simp only [List.cons_append, hasSub, Bool.or_eq_true]
    exact Or.inr ih

theorem hasSub_mid (p l r : List Char) : hasSub p (l ++ (p ++ r)) = true :=
  hasSub_append_left p l (p ++ r) (hasSub_self_append p r)

/-! ## JSON values

Modelled from the spec: request decoding in the gateway and response encoding
are performed by the Go `encoding/json` (`json.NewDecoder(r.Body).Decode` at
src/main.go line 101, `json.NewEncoder(w).Encode` at line 118), which is
standard-library code not present under `src/`. The definitions in this
section embed the documented semantics of those functions: a `Decoder`
decodes the next single JSON value from the stream (leaving any trailing
bytes unread), and an `Encoder` writes compact JSON with HTML-unsafe
characters escaped, followed by a newline.

`JVal` is the JSON value tree; numbers keep their raw source text, since the
gateway never reads a numeric value.
-/

inductive JVal where
  | null : JVal
  | bool : Bool → JVal
  | num : String → JVal
  | str : String → JVal
  | arr : List JVal → JVal
  | obj : List (String × JVal) → JVal

/-- JSON whitespace, as in the Go `encoding/json` scanner (`isSpace`):
space, tab, newline, carriage return. -/
def isWs (c : Char) : Bool := c = ' ' || c = '\t' || c = '\n' || c = '\r'

def skipWs : List Char → List Char
  | [] => []
  | c :: l => if isWs c then skipWs l else c :: l

/-- Left and right curly braces as characters, by code point. -/
def lbrace : Char := Char.ofNat 123

def rbrace : Char := Char.ofNat 125

/-- The Unicode replacement character U+FFFD, which the Go decoder substitutes
for unpaired surrogate escapes. -/
def replChar : Char := Char.ofNat 65533

/-- Value of one hexadecimal digit, accepting `0-9`, `a-f`, `A-F` as the Go
`getu4` does. -/
def hexVal (c : Char) : Option Nat :=
  if 48 ≤ c.toNat ∧ c.toNat ≤ 57 then some (c.toNat - 48)
  else if 97 ≤ c.toNat ∧ c.toNat ≤ 102 then some (c.toNat - 87)
  else if 65 ≤ c.toNat ∧ c.toNat ≤ 70 then some (c.toNat - 55)
  else none

/-- Value of a four-digit hexadecimal escape `\uXXXX`. -/
def hex4 (a b c d : Char) : Option Nat :=
  match hexVal a, hexVal b, hexVal c, hexVal d with
  | some w, some x, some y, some z => some (4096 * w + 256 * x + 16 * y + z)
  | _, _, _, _ => none

/-- Prepend a decoded character to the result of a string-body parse. -/
def consStr (c : Char) :
    Except String (List Char × List Char) →
      Except String (List Char × List Char)
  | .ok (s, rest) => .ok (c :: s, rest)
  | .error e => .error e

/-- Surrogate-pair lookahead after a high-surrogate unicode escape with
value `n`: when the input continues with a low-surrogate escape the two
combine into one code point; otherwise the high surrogate becomes the
replacement character and the lookahead is left to be re-processed. -/
def surrTail (n : Nat) (l2 : List Char) : Except String (Char × List Char) :=
  match l2 with
  | x :: y :: p :: q :: r :: s :: l3 =>
    if x = '\\' ∧ y = 'u' then
      match hex4 p q r s with
      | some m =>
        if 56320 ≤ m ∧ m < 57344 then
          .ok (Char.ofNat (65536 + (n - 55296) * 1024 + (m - 56320)), l3)
        else .ok (replChar, l2)
      | none => .ok (replChar, l2)
    else .ok (replChar, l2)
  | _ => .ok (replChar, l2)

/-- Decode one escape sequence (the input starts just after a backslash),
returning the decoded character and the unconsumed input. Mirrors the Go
decoder function `unquoteBytes`: the simple escapes, and unicode escapes
with surrogate pairs handled by `surrTail`, the replacement character
substituted for unpaired surrogates. -/
def parseEsc1 : List Char → Except String (Char × List Char)
  | [] => .error "unexpected end of JSON input"
  | e :: l =>
    if e = '"' then .ok ('"', l)
    else if e = '\\' then .ok ('\\', l)
    else if e = '/' then .ok ('/', l)
    else if e = 'b' then .ok (Char.ofNat 8, l)
    else if e = 'f' then .ok (Char.ofNat 12, l)
    else if e = 'n' then .ok ('\n', l)
    else if e = 'r' then .ok ('\r', l)
    else if e = 't' then .ok ('\t', l)
    else if e = 'u' then
      match l with
      | a :: b :: c :: d :: l2 =>
        match hex4 a b c d with
        | none => .error "invalid unicode escape in string literal"
        | some n =>
          if 55296 ≤ n ∧ n < 56320 then surrTail n l2
          else if 56320 ≤ n ∧ n < 57344 then .ok (replChar, l2)
          else .ok (Char.ofNat n, l2)
      | _ => .error "unexpected end of JSON input"
    else .error "invalid character in string escape code"

/-- Decode the body of a JSON string literal (the input starts just after
the opening quote), up to and past the closing quote. Fuelled so that the
recursion is structural; `fuel = input length` always suffices because each
step consumes at least one input character. -/
def parseJString : Nat → List Char → Except String (List Char × List Char)
  | 0, _ => .error "string literal exceeds fuel"
  | fuel + 1, l =>
    match l with
    | [] => .error "unexpected end of JSON input"
    | c :: r =>
      if c = '"' then .ok ([], r)
      else if c = '\\' then
        match parseEsc1 r with
        | .error e => .error e
        | .ok (ch, r2) => consStr ch (parseJString fuel r2)
      else if c.toNat < 32 then
        .error "invalid character in string literal"
      else consStr c (parseJString fuel r)

/-- Longest digit run at the head of the input. -/
def munchDigits : List Char → List Char × List Char
  | [] => ([], [])
  | c :: l =>
    if c.isDigit then
      let p := munchDigits l
      (c :: p.1, p.2)
    else ([], c :: l)

/-- Integer part of a JSON number, per the Go scanner: a single `0`, or a
nonzero digit followed by any digit run. -/
def parseIntPart : List Char → Except String (List Char × List Char)
  | [] => .error "unexpected end of JSON input"
  | c :: l =>
    if c = '0' then .ok (['0'], l)
    else if c.isDigit then
      let p := munchDigits l
      .ok (c :: p.1, p.2)
    else .error "invalid character in numeric literal"

/-- Optional fractional part: `.` followed by at least one digit. -/
def parseFracPart : List Char → Except String (List Char × List Char)
  | [] => .ok ([], [])
  | c :: l =>
    if c = '.' then
      match munchDigits l with
      | ([], _) => .error "invalid character after decimal point in numeric literal"
      | (ds, r) => .ok ('.' :: ds, r)
    else .ok ([], c :: l)

/-- Optional sign at the head of an exponent. -/
def parseSign : List Char → List Char × List Char
  | [] => ([], [])
  | s :: l2 =>
    if s = '+' then (['+'], l2)
    else if s = '-' then (['-'], l2)
    else ([], s :: l2)

/-- Optional exponent part: `e` or `E`, an optional sign, then at least one
digit. -/
def parseExpPart : List Char → Except String (List Char × List Char)
  | [] => .ok ([], [])
  | c :: l =>
    if c = 'e' ∨ c = 'E' then
      let sp := parseSign l
      match munchDigits sp.2 with
      | ([], _) => .error "invalid character in exponent of numeric literal"
      | (ds, r) => .ok (c :: (sp.1 ++ ds), r)
    else .ok ([], c :: l)

/-- Optional leading minus of a number. -/
def parseNeg : List Char → List Char × List Char
  | [] => ([], [])
  | c :: l1 => if c = '-' then (['-'], l1) else ([], c :: l1)

/-- A JSON number: optional minus, integer part, optional fraction and
exponent. Returns the raw source text of the number. -/
def parseNumber (l : List Char) : Except String (List Char × List Char) :=
  let np := parseNeg l
  match parseIntPart np.2 with
  | .error e => .error e
  | .ok (ip, r1) =>
    match parseFracPart r1 with
    | .error e => .error e
    | .ok (fp, r2) =>
      match parseExpPart r2 with
      | .error e => .error e
      | .ok (ep, r3) => .ok (np.1 ++ ip ++ fp ++ ep, r3)

/-- Match an exact literal tail (`rue`, `alse`, `ull`), producing `v`. -/
def expectLit : List Char → JVal → List Char → Except String (JVal × List Char)
  | [], v, l => .ok (v, l)
  | _ :: _, _, [] => .error "unexpected end of JSON input"
  | p :: ps, v, c :: r =>
    if c = p then expectLit ps v r
    else .error "invalid character in literal"

/-- Parse the members of a non-empty JSON object (the input starts at the
key of the first member, already past `{` and any whitespace). `pv` parses one
value; the fuel bounds the number of members and `fuel = input length`
always suffices since each member consumes input. -/
def parseMembersF (pv : List Char → Except String (JVal × List Char)) :
    Nat → List Char → Except String (List (String × JVal) × List Char)
  | 0, _ => .error "object exceeds fuel"
  | fuel + 1, l =>
    match skipWs l with
    | [] => .error "unexpected end of JSON input"
    | c :: r =>
      if c = '"' then
        match parseJString r.length r with
        | .error e => .error e
        | .ok (key, r2) =>
          match skipWs r2 with
          | [] => .error "unexpected end of JSON input"
          | c2 :: r3 =>
            if c2 = ':' then
              match pv r3 with
              | .error e => .error e
              | .ok (v, r4) =>
                match skipWs r4 with
                | [] => .error "unexpected end of JSON input"
                | c3 :: r5 =>
                  if c3 = ',' then
                    match parseMembersF pv fuel r5 with
                    | .error e => .error e
                    | .ok (ms, r6) => .ok ((String.mk key, v) :: ms, r6)
                  else if c3 = rbrace then .ok ([(String.mk key, v)], r5)
                  else .error "invalid character after object key-value pair"
            else .error "invalid character after object key"
      else .error "invalid character looking for object key"

/-- Parse the elements of a non-empty JSON array (the input starts at the
first element, already past `[`). -/
def parseElemsF (pv : List Char → Except String (JVal × List Char)) :
    Nat → List Char → Except String (List JVal × List Char)
  | 0, _ => .error "array exceeds fuel"
  | fuel + 1, l =>
    match pv l with
    | .error e => .error e
    | .ok (v, r) =>
      match skipWs r with
      | [] => .error "unexpected end of JSON input"
      | c :: r2 =>
        if c = ',' then
          match parseElemsF pv fuel r2 with
          | .error e => .error e
          | .ok (vs, r3) => .ok (v :: vs, r3)
        else if c = ']' then .ok ([v], r2)
        else .error "invalid character after array element"

/-- Parse one JSON value. The fuel bounds the nesting depth and
`fuel = input length + 1` always suffices, since every nesting level
consumes at least one character before recursing. -/
def parseVal : Nat → List Char → Except String (JVal × List Char)
  | 0, _ => .error "value exceeds fuel"
  | fuel + 1, l =>
    match skipWs l with
    | [] => .error "unexpected end of JSON input"
    | c :: r =>
      if c = lbrace then
        match skipWs r with
        | [] => .error "unexpected end of JSON input"
        | c2 :: r2 =>
          if c2 = rbrace then .ok (.obj [], r2)
          else
            match parseMembersF (parseVal fuel) (c2 :: r2).length (c2 :: r2) with
            | .error e => .error e
            | .ok (ms, r3) => .ok (.obj ms, r3)
      else if c = '[' then
        match skipWs r with
        | [] => .error "unexpected end of JSON input"
        | c2 :: r2 =>
          if c2 = ']' then .ok (.arr [], r2)
          else
            match parseElemsF (parseVal fuel) (c2 :: r2).length (c2 :: r2) with
            | .error e => .error e
            | .ok (vs, r3) => .ok (.arr vs, r3)
      else if c = '"' then
        match parseJString r.length r with
        | .error e => .error e
        | .ok (s, r2) => .ok (.str (String.mk s), r2)
      else if c = 't' then expectLit ['r', 'u', 'e'] (.bool true) r
      else if c = 'f' then expectLit ['a', 'l', 's', 'e'] (.bool false) r
      else if c = 'n' then expectLit ['u', 'l', 'l'] .null r
      else if c = '-' || c.isDigit then
        match parseNumber (c :: r) with
        | .error e => .error e
        | .ok (raw, r2) => .ok (.num (String.mk raw), r2)
      else .error "invalid character looking for beginning of value"

/-- Whether the textual form of a JSON value is self-delimiting (objects, arrays
and strings end at a closing token). Numbers and the keyword literals are
not: the Go scanner reads one more character to see where they end, and
rejects anything but whitespace there at top level. -/
def selfDelim : JVal → Bool
  | .obj _ => true
  | .arr _ => true
  | .str _ => true
  | _ => false

/-- Modelled from the spec: `json.Decoder.Decode` (src/main.go line 101)
reads the next single JSON value from the body and leaves any further bytes
in the stream unread. For a value that is not self-delimiting, the scanner
additionally demands that the following character, if any, be whitespace
("after top-level value"). -/
def decodeFirstValue (l : List Char) : Except String (JVal × List Char) :=
  match parseVal (l.length + 1) l with
  | .error e => .error e
  | .ok (v, rest) =>
    if selfDelim v then .ok (v, rest)
    else
      match rest with
      | [] => .ok (v, rest)
      | c :: _ =>
        if isWs c then .ok (v, rest)
        else .error "invalid character after top-level value"

/-- Case-insensitive JSON field-name match, as `encoding/json` falls back to
when no exact tag match exists (folded comparison). -/
def foldEq (a b : String) : Bool := toLowerGo a == toLowerGo b

/-- Apply one decoded object member to the struct being filled, as
`encoding/json` unmarshals an object into `TravelAgentInput`: a member whose
key matches the `userQuery` tag sets the field when the value is a string,
is a no-op when the value is `null`, and is a type error otherwise; members
with other keys are ignored. -/
def applyMember (acc : Except String TravelAgentInput) (m : String × JVal) :
    Except String TravelAgentInput :=
  match acc with
  | .error e => .error e
  | .ok st =>
    if foldEq m.1 "userQuery" then
      match m.2 with
      | .str s => .ok { userQuery := s }
      | .null => .ok st
      | _ => .error "json: cannot unmarshal value into Go struct field TravelAgentInput.userQuery of type string"
    else .ok st

/-- Modelled from the spec: the whole of
`json.NewDecoder(r.Body).Decode(&input)` for `input : TravelAgentInput`
(src/main.go lines 100-101). Decodes the first JSON value of the body; a
top-level `null` leaves the zero-valued struct, a top-level object fills the
struct member by member, and any other top-level value is a type error.
A missing `userQuery` member simply leaves the field at its zero value `""`
— `encoding/json` has no notion of required fields. -/
def decodeTravelAgentInput (body : String) : Except String TravelAgentInput :=
  match decodeFirstValue body.data with
  | .error e => .error e
  | .ok (.obj ms, _) => ms.foldl applyMember (.ok { userQuery := "" })
  | .ok (.null, _) => .ok { userQuery := "" }
  | .ok (_, _) => .error "json: cannot unmarshal value into Go value of type main.TravelAgentInput"

/-! ## JSON encoding of the success response -/

/-- Lowercase hexadecimal digit, as `encoding/json` writes in `\u00XX`
escapes. -/
def hexDigChar (n : Nat) : Char :=
  if n < 10 then Char.ofNat (48 + n) else Char.ofNat (87 + n)

/-- Modelled from the spec: how `json.Encoder` (with its default HTML
escaping) writes one character of a string value. `"` and `\` get a
backslash escape; newline, carriage return and tab get their short escapes;
other control characters become `\u00XX`; the HTML-unsafe `<`, `>`, `&` and
the line separators U+2028/U+2029 become `\uXXXX`; everything else is
written literally. -/
def escChar (c : Char) : List Char :=
  if c = '"' then ['\\', '"']
  else if c = '\\' then ['\\', '\\']
  else if c = '\n' then ['\\', 'n']
  else if c = '\r' then ['\\', 'r']
  else if c = '\t' then ['\\', 't']
  else if c = '<' then ['\\', 'u', '0', '0', '3', 'c']
  else if c = '>' then ['\\', 'u', '0', '0', '3', 'e']
  else if c = '&' then ['\\', 'u', '0', '0', '2', '6']
  else if c.toNat < 32 then
    ['\\', 'u', '0', '0', hexDigChar (c.toNat / 16), hexDigChar (c.toNat % 16)]
  else if c.toNat = 8232 then ['\\', 'u', '2', '0', '2', '8']
  else if c.toNat = 8233 then ['\\', 'u', '2', '0', '2', '9']
  else [c]

def escChars : List Char → List Char
  | [] => []
  | c :: cs => escChar c ++ escChars cs

/-- A JSON string literal for `s`, in the escaping of the encoder. -/
def goQuote (s : String) : String :=
  "\"" ++ String.mk (escChars s.data) ++ "\""

/-- Modelled from the spec: the bytes
`json.NewEncoder(w).Encode(map[string]string{"result": result})`
(src/main.go line 118) writes: the compact one-member object followed by the
trailing `Encoder` newline. -/
def encodeResultBody (result : String) : String :=
  "\x7b\"result\":" ++ goQuote result ++ "\x7d\n"

/-! ## Flow and HTTP gateway (src/main.go) -/

/-- The collaborator reply as the flow reads it: `resp.Text()`
(src/main.go line 67) is the only projection used. -/
structure ModelResponse where
  text : String
deriving DecidableEq, Repr

/-- The `travelAgent` flow body (src/main.go lines 56-68): one call to
`agentPrompt.Execute`; an error is returned unchanged together with the
empty string, a success yields `resp.Text()`. The external collaborator is
abstracted as the function `execute`; alongside the `Except` result of the flow
we return how many times the flow applied `execute`, which the single
call site fixes at one — there is no loop or retry in the source. -/
def travelAgentFlow (execute : TravelAgentInput → Except String ModelResponse)
    (input : TravelAgentInput) : Except String String × Nat :=
  match execute input with
  | .error e => (.error e, 1)
  | .ok resp => (.ok resp.text, 1)

/-- What the `/travelAgent` handler wrote for one request: HTTP status,
response body, how many times the flow invoked the external collaborator,
and whether the handler reached the body-decoding step. -/
structure GatewayOutcome where
  status : Nat
  body : String
  collaboratorCalls : Nat
  bodyParseAttempted : Bool
deriving DecidableEq, Repr

/-- The `/travelAgent` handler (src/main.go lines 91-119). `http.Error`
writes its message followed by a newline, hence the `++ "\n"` on the error
bodies. The flow is abstracted as `flowRun`, returning its `Except` result
and its collaborator-call count. -/
def handleTravelAgent
    (flowRun : TravelAgentInput → Except String String × Nat)
    (method : String) (reqBody : String) : GatewayOutcome :=
  if method ≠ "POST" then
    { status := 405, body := "Method not allowed\n",
      collaboratorCalls := 0, bodyParseAttempted := false }
  else
    match decodeTravelAgentInput reqBody with
    | .error e =>
      { status := 400, body := "Invalid JSON: " ++ e ++ "\n",
        collaboratorCalls := 0, bodyParseAttempted := true }
    | .ok input =>
      match flowRun input with
      | (.error e, n) =>
        { status := 500, body := e ++ "\n",
          collaboratorCalls := n, bodyParseAttempted := true }
      | (.ok result, n) =>
        { status := 200, body := encodeResultBody result,
          collaboratorCalls := n, bodyParseAttempted := true }

/-! ## Prefix stability of the decoder

A successful parse only ever inspects the characters it consumes (plus, for
values that are not self-delimiting, one character of lookahead), so parsing
`l ++ t` retraces the parse of `l`. These lemmas make that precise and also
provide fuel monotonicity, so that `decodeFirstValue` applied to a body with
trailing bytes — whose fuel is larger — reproduces the original parse.
-/

theorem skipWs_append_cons (l t : List Char) (c : Char) (r : List Char)
    (h : skipWs l = c :: r) : skipWs (l ++ t) = c :: (r ++ t) := by
  induction l with
  | nil => simp [skipWs] at h
  | cons a l ih =>
    by_cases ha : isWs a = true
    · simp only [skipWs, ha, if_true] at h
      simpa only [List.cons_append, skipWs, ha, if_true] using ih h
    · simp only [skipWs, ha, if_false, Bool.false_eq_true] at h
      rw [List.cons.injEq] at h
      obtain ⟨rfl, rfl⟩ := h
      simp [List.cons_append, skipWs, ha]

theorem munchDigits_append (l t ds : List Char) (c : Char) (r : List Char)
    (h : munchDigits l = (ds, c :: r)) :
    munchDigits (l ++ t) = (ds, c :: (r ++ t)) := by
  induction l generalizing ds with
  | nil => simp [munchDigits] at h
  | cons a l ih =>
    by_cases ha : a.isDigit = true
    · rcases hml : munchDigits l with ⟨ds1, r1⟩
      simp only [munchDigits, ha, if_true, hml, Prod.mk.injEq] at h
      obtain ⟨hds, hr1⟩ := h
      subst hds
      subst hr1
      have h2 := ih ds1 hml
      simp [List.cons_append, munchDigits, ha, h2]
    · simp only [munchDigits, ha, if_false, Bool.false_eq_true,
        Prod.mk.injEq] at h
      obtain ⟨hds, hr1⟩ := h
      subst hds
      rw [List.cons.injEq] at hr1
      obtain ⟨rfl, rfl⟩ := hr1
      simp [List.cons_append, munchDigits, ha]

theorem parseIntPart_append (l t ds r : List Char)
    (h : parseIntPart l = .ok (ds, r)) (hr : r ≠ []) :
    parseIntPart (l ++ t) = .ok (ds, r ++ t) := by
  cases l with
  | nil => simp [parseIntPart] at h
  | cons a l =>
    by_cases h0 : a = '0'
    · simp only [parseIntPart, h0, if_true, Except.ok.injEq,
        Prod.mk.injEq] at h
      obtain ⟨rfl, rfl⟩ := h
      simp [List.cons_append, parseIntPart, h0]
    · by_cases ha : a.isDigit = true
      · rcases hml : munchDigits l with ⟨ds1, r1⟩
        simp only [parseIntPart, h0, if_false, ha, if_true, hml,
          Except.ok.injEq, Prod.mk.injEq] at h
        obtain ⟨hds, hr1⟩ := h
        subst hds
        subst hr1
        cases hr1x : r1 with
        | nil => exact absurd hr1x hr
        | cons c r2 =>
          have h2 := munchDigits_append l t ds1 c r2 (hr1x ▸ hml)
          simp [List.cons_append, parseIntPart, h0, ha, h2, hr1x]
      · simp [parseIntPart, h0, ha] at h

theorem parseFracPart_append (l t ds r : List Char)
    (h : parseFracPart l = .ok (ds, r)) (hr : r ≠ []) :
    parseFracPart (l ++ t) = .ok (ds, r ++ t) := by
  cases l with
  | nil =>
    simp only [parseFracPart, Except.ok.injEq, Prod.mk.injEq] at h
    obtain ⟨rfl, rfl⟩ := h
    exact absurd rfl hr
  | cons a l =>
    by_cases hdot : a = '.'
    · rcases hml : munchDigits l with ⟨ds1, r1⟩
      cases ds1 with
      | nil => simp [parseFracPart, hdot, hml] at h
      | cons d ds2 =>
        simp only [parseFracPart, hdot, if_true, hml, Except.ok.injEq,
          Prod.mk.injEq] at h
        obtain ⟨hds, hr1⟩ := h
        subst hds
        subst hr1
        cases hr1x : r1 with
        | nil => exact absurd hr1x hr
        | cons c r2 =>
          have h2 := munchDigits_append l t (d :: ds2) c r2 (hr1x ▸ hml)
          simp [List.cons_append, parseFracPart, hdot, h2, hr1x]
    · simp only [parseFracPart, hdot, if_false, Except.ok.injEq,
        Prod.mk.injEq] at h
      obtain ⟨rfl, rfl⟩ := h
      simp [List.cons_append, parseFracPart, hdot]

theorem parseSign_append (l t : List Char) (sg : List Char) (c : Char)
    (r : List Char) (h : parseSign l = (sg, c :: r)) :
    parseSign (l ++ t) = (sg, c :: (r ++ t)) := by
  cases l with
  | nil => simp [parseSign] at h
  | cons s l2 =>
    by_cases hp : s = '+'
    · simp only [parseSign, hp, if_true, Prod.mk.injEq] at h
      obtain ⟨rfl, hl2⟩ := h
      subst hl2
      simp [List.cons_append, parseSign, hp]
    · by_cases hm : s = '-'
      · subst hm
        simp only [parseSign] at h
        rw [if_neg hp] at h
        simp only [if_true, eq_self_iff_true, Prod.mk.injEq] at h
        obtain ⟨rfl, rfl⟩ := h
        simp only [List.cons_append, parseSign]
        rw [if_neg hp]
        simp
      · simp only [parseSign, hp, if_false, Bool.false_eq_true, hm,
          Prod.mk.injEq] at h
        obtain ⟨rfl, hl2⟩ := h
        rw [List.cons.injEq] at hl2
        obtain ⟨rfl, rfl⟩ := hl2
        simp [List.cons_append, parseSign, hp, hm]

theorem parseNeg_append (l t : List Char) (sg : List Char) (c : Char)
    (r : List Char) (h : parseNeg l = (sg, c :: r)) :
    parseNeg (l ++ t) = (sg, c :: (r ++ t)) := by
  cases l with
  | nil => simp [parseNeg] at h
  | cons a l1 =>
    by_cases hm : a = '-'
    · simp only [parseNeg, hm, if_true, Prod.mk.injEq] at h
      obtain ⟨rfl, hl1⟩ := h
      subst hl1
      simp [List.cons_append, parseNeg, hm]
    · simp only [parseNeg, hm, if_false, Bool.false_eq_true,
        Prod.mk.injEq] at h
      obtain ⟨rfl, hl1⟩ := h
      rw [List.cons.injEq] at hl1
      obtain ⟨rfl, rfl⟩ := hl1
      simp [List.cons_append, parseNeg, hm]

theorem parseExpPart_append (l t ds r : List Char)
    (h : parseExpPart l = .ok (ds, r)) (hr : r ≠ []) :
    parseExpPart (l ++ t) = .ok (ds, r ++ t) := by
  cases l with
  | nil =>
    simp only [parseExpPart, Except.ok.injEq, Prod.mk.injEq] at h
    obtain ⟨rfl, rfl⟩ := h
    exact absurd rfl hr
  | cons a l =>
    by_cases he : a = 'e' ∨ a = 'E'
    · rcases hsp : parseSign l with ⟨sg, r0⟩
      rcases hml : munchDigits r0 with ⟨ds1, r1⟩
      cases ds1 with
      | nil => simp [parseExpPart, he, hsp, hml] at h
      | cons d ds2 =>
        simp only [parseExpPart, he, if_true, hsp, hml, Except.ok.injEq,
          Prod.mk.injEq] at h
        obtain ⟨hds, hr1⟩ := h
        subst hds
        subst hr1
        cases r0 with
        | nil =>
          rw [show munchDigits [] = ([], []) from rfl, Prod.mk.injEq] at hml
          exact absurd hml.1.symm (List.cons_ne_nil d ds2)
        | cons c0 r0x =>
          cases hr1x : r1 with
          | nil => exact absurd hr1x hr
          | cons c r2 =>
            have hsp2 := parseSign_append l t sg c0 r0x hsp
            have hml2 := munchDigits_append (c0 :: r0x) t (d :: ds2) c r2
              (hr1x ▸ hml)
            simp only [List.cons_append] at hml2
            simp [List.cons_append, parseExpPart, he, hsp2, hml2, hr1x]
    · simp only [parseExpPart, he, if_false, Except.ok.injEq,
        Prod.mk.injEq] at h
      obtain ⟨rfl, rfl⟩ := h
      simp [List.cons_append, parseExpPart, he]

theorem parseNumber_append (l t raw r : List Char)
    (h : parseNumber l = .ok (raw, r)) (hr : r ≠ []) :
    parseNumber (l ++ t) = .ok (raw, r ++ t) := by
  rcases hnp : parseNeg l with ⟨sg, l2⟩
  rcases hip : parseIntPart l2 with e | ⟨ip, r1⟩
  · simp [parseNumber, hnp, hip] at h
  · rcases hfp : parseFracPart r1 with e | ⟨fp, r2⟩
    · simp [parseNumber, hnp, hip, hfp] at h
    · rcases hep : parseExpPart r2 with e | ⟨ep, r3⟩
      · simp [parseNumber, hnp, hip, hfp, hep] at h
      · simp only [parseNumber, hnp, hip, hfp, hep, Except.ok.injEq,
          Prod.mk.injEq] at h
        obtain ⟨hraw, hr3⟩ := h
        subst hraw
        subst hr3
        have hr2 : r2 ≠ [] := by
          intro hee
          subst hee
          simp only [parseExpPart, Except.ok.injEq, Prod.mk.injEq] at hep
          exact hr hep.2.symm
        have hr1 : r1 ≠ [] := by
          intro hee
          subst hee
          simp only [parseFracPart, Except.ok.injEq, Prod.mk.injEq] at hfp
          exact hr2 hfp.2.symm
        have hl2 : l2 ≠ [] := by
          intro hee
          subst hee
          simp [parseIntPart] at hip
        cases l2 with
        | nil => exact absurd rfl hl2
        | cons c0 l3 =>
          have hnp2 := parseNeg_append l t sg c0 l3 hnp
          have hip2 := parseIntPart_append (c0 :: l3) t ip r1 hip hr1
          have hfp2 := parseFracPart_append r1 t fp r2 hfp hr2
          have hep2 := parseExpPart_append r2 t ep r3 hep hr
          simp only [List.cons_append] at hip2
          simp [parseNumber, hnp2, hip2, hfp2, hep2]

theorem expectLit_append (pat : List Char) (v : JVal) (l t : List Char)
    (w : JVal) (r : List Char) (h : expectLit pat v l = .ok (w, r)) :
    expectLit pat v (l ++ t) = .ok (w, r ++ t) := by
  induction pat generalizing l with
  | nil =>
    simp only [expectLit, Except.ok.injEq, Prod.mk.injEq] at h
    obtain ⟨rfl, rfl⟩ := h
    simp [expectLit]
  | cons p ps ih =>
    cases l with
    | nil => simp [expectLit] at h
    | cons c l1 =>
      by_cases hc : c = p
      · simp only [expectLit, hc, if_true] at h
        simpa only [List.cons_append, expectLit, hc, if_true] using ih l1 h
      · simp [expectLit, hc] at h

theorem surrTail_head_ne (n : Nat) (x : Char) (T : List Char)
    (hx : ¬x = '\\') : surrTail n (x :: T) = .ok (replChar, x :: T) := by
  rcases T with _ | ⟨y, _ | ⟨p, _ | ⟨q, _ | ⟨rr, _ | ⟨s, l3⟩⟩⟩⟩⟩ <;>
    simp [surrTail, hx]

theorem surrTail_guard_false (n : Nat) (x y : Char) (T : List Char)
    (hg : ¬(x = '\\' ∧ y = 'u')) :
    surrTail n (x :: y :: T) = .ok (replChar, x :: y :: T) := by
  rcases T with _ | ⟨p, _ | ⟨q, _ | ⟨rr, _ | ⟨s, l3⟩⟩⟩⟩ <;> simp [surrTail, hg]

theorem surrTail_append (n : Nat) (l2 t : List Char) (ch : Char)
    (r : List Char) (f : Nat) (p : List Char × List Char)
    (h : surrTail n l2 = .ok (ch, r)) (hc : parseJString f r = .ok p) :
    surrTail n (l2 ++ t) = .ok (ch, r ++ t) := by
  rcases l2 with _ | ⟨x, _ | ⟨y, _ | ⟨pp, _ | ⟨q, _ | ⟨rr, _ | ⟨s, l3⟩⟩⟩⟩⟩⟩
  · simp only [surrTail, Except.ok.injEq, Prod.mk.injEq] at h
    obtain ⟨rfl, rfl⟩ := h
    cases f <;> simp [parseJString] at hc
  · simp only [surrTail, Except.ok.injEq, Prod.mk.injEq] at h
    obtain ⟨rfl, rfl⟩ := h
    have hx : ¬x = '\\' := by
      intro hx
      subst hx
      cases f <;> simp [parseJString, parseEsc1] at hc
    simpa using surrTail_head_ne n x t hx
  · simp only [surrTail, Except.ok.injEq, Prod.mk.injEq] at h
    obtain ⟨rfl, rfl⟩ := h
    have hg : ¬(x = '\\' ∧ y = 'u') := by
      rintro ⟨rfl, rfl⟩
      cases f <;> simp [parseJString, parseEsc1] at hc
    simpa using surrTail_guard_false n x y t hg
  · simp only [surrTail, Except.ok.injEq, Prod.mk.injEq] at h
    obtain ⟨rfl, rfl⟩ := h
    have hg : ¬(x = '\\' ∧ y = 'u') := by
      rintro ⟨rfl, rfl⟩
      cases f <;> simp [parseJString, parseEsc1] at hc
    simpa using surrTail_guard_false n x y (pp :: t) hg
  · simp only [surrTail, Except.ok.injEq, Prod.mk.injEq] at h
    obtain ⟨rfl, rfl⟩ := h
    have hg : ¬(x = '\\' ∧ y = 'u') := by
      rintro ⟨rfl, rfl⟩
      cases f <;> simp [parseJString, parseEsc1] at hc
    simpa using surrTail_guard_false n x y (pp :: q :: t) hg
  · simp only [surrTail, Except.ok.injEq, Prod.mk.injEq] at h
    obtain ⟨rfl, rfl⟩ := h
    have hg : ¬(x = '\\' ∧ y = 'u') := by
      rintro ⟨rfl, rfl⟩
      cases f <;> simp [parseJString, parseEsc1] at hc
    simpa using surrTail_guard_false n x y (pp :: q :: rr :: t) hg
  · by_cases hg : x = '\\' ∧ y = 'u'
    · obtain ⟨rfl, rfl⟩ := hg
      rcases hx2 : hex4 pp q rr s with _ | m
      · simp only [surrTail, hx2, true_and, eq_self_iff_true, if_true,
          Except.ok.injEq, Prod.mk.injEq] at h
        obtain ⟨rfl, rfl⟩ := h
        simp [surrTail, hx2]
      · by_cases hs2 : 56320 ≤ m ∧ m < 57344
        · simp only [surrTail, hx2, true_and, eq_self_iff_true, if_true,
            hs2, Except.ok.injEq, Prod.mk.injEq] at h
          obtain ⟨rfl, rfl⟩ := h
          simp [surrTail, hx2, hs2]
        · simp only [surrTail, hx2, true_and, eq_self_iff_true, if_true,
            hs2, if_false, Except.ok.injEq, Prod.mk.injEq] at h
          obtain ⟨rfl, rfl⟩ := h
          simp [surrTail, hx2, hs2]
    · simp only [surrTail, hg, if_false, Except.ok.injEq,
        Prod.mk.injEq] at h
      obtain ⟨rfl, rfl⟩ := h
      simpa using surrTail_guard_false n x y (pp :: q :: rr :: s :: (l3 ++ t)) hg

theorem parseEsc1_append (l t : List Char) (ch : Char) (r : List Char)
    (f : Nat) (p : List Char × List Char)
    (h : parseEsc1 l = .ok (ch, r)) (hc : parseJString f r = .ok p) :
    parseEsc1 (l ++ t) = .ok (ch, r ++ t) := by
  cases l with
  | nil => simp [parseEsc1] at h
  | cons e l =>
    by_cases h1 : e = '"'
    · subst h1
      simp only [parseEsc1, eq_self_iff_true, if_true, Except.ok.injEq,
        Prod.mk.injEq] at h
      obtain ⟨rfl, rfl⟩ := h
      simp [parseEsc1]
    · by_cases h2 : e = '\\'
      · subst h2
        simp [parseEsc1] at h
        obtain ⟨rfl, rfl⟩ := h
        simp [parseEsc1]
      · by_cases h3 : e = '/'
        · subst h3
          simp [parseEsc1] at h
          obtain ⟨rfl, rfl⟩ := h
          simp [parseEsc1]
        · by_cases h4 : e = 'b'
          · subst h4
            simp [parseEsc1] at h
            obtain ⟨rfl, rfl⟩ := h
            simp [parseEsc1]
          · by_cases h5 : e = 'f'
            · subst h5
              simp [parseEsc1] at h
              obtain ⟨rfl, rfl⟩ := h
              simp [parseEsc1]
            · by_cases h6 : e = 'n'
              · subst h6
                simp [parseEsc1] at h
                obtain ⟨rfl, rfl⟩ := h
                simp [parseEsc1]
              · by_cases h7 : e = 'r'
                · subst h7
                  simp [parseEsc1] at h
                  obtain ⟨rfl, rfl⟩ := h
                  simp [parseEsc1]
                · by_cases h8 : e = 't'
                  · subst h8
                    simp [parseEsc1] at h
                    obtain ⟨rfl, rfl⟩ := h
                    simp [parseEsc1]
                  · by_cases hu : e = 'u'
                    · subst hu
                      rcases l with _ | ⟨a, _ | ⟨b, _ | ⟨c, _ | ⟨d, l2⟩⟩⟩⟩
                      · simp [parseEsc1] at h
                      · simp [parseEsc1] at h
                      · simp [parseEsc1] at h
                      · simp [parseEsc1] at h
                      · rcases hx : hex4 a b c d with _ | n
                        · simp [parseEsc1, hx] at h
                        · by_cases hs1 : 55296 ≤ n ∧ n < 56320
                          · simp only [parseEsc1, hx, hs1, if_true] at h
                            have h9 := surrTail_append n l2 t ch r f p h hc
                            simp [parseEsc1, hx, hs1, List.cons_append, h9]
                          · by_cases hs2 : 56320 ≤ n ∧ n < 57344
                            · simp only [parseEsc1, hx, hs1, if_false, hs2,
                                if_true, Except.ok.injEq, Prod.mk.injEq] at h
                              obtain ⟨rfl, rfl⟩ := h
                              simp [parseEsc1, hx, hs1, hs2,
                                List.cons_append]
                            · simp only [parseEsc1, hx, hs1, if_false, hs2,
                                Except.ok.injEq, Prod.mk.injEq] at h
                              obtain ⟨rfl, rfl⟩ := h
                              simp [parseEsc1, hx, hs1, hs2,
                                List.cons_append]
                    · simp [parseEsc1, h1, h2, h3, h4, h5, h6, h7, h8,
                        hu] at h

theorem parseJString_extmono (f : Nat) :
    ∀ f2 l t s r, f ≤ f2 → parseJString f l = .ok (s, r) →
      parseJString f2 (l ++ t) = .ok (s, r ++ t) := by
  induction f with
  | zero =>
    intro f2 l t s r hf h
    simp [parseJString] at h
  | succ g ih =>
    intro f2 l t s r hf h
    obtain ⟨g2, rfl⟩ : ∃ g2, f2 = g2 + 1 := ⟨f2 - 1, by omega⟩
    have hg : g ≤ g2 := by omega
    cases l with
    | nil => simp [parseJString] at h
    | cons c l =>
      by_cases h1 : c = '"'
      · subst h1
        simp only [parseJString, eq_self_iff_true, if_true, Except.ok.injEq,
          Prod.mk.injEq] at h
        obtain ⟨rfl, rfl⟩ := h
        simp [parseJString]
      · by_cases h2 : c = '\\'
        · subst h2
          rcases he : parseEsc1 l with e | ⟨ch, r2⟩
          · simp [parseJString, he] at h
          · rcases hj : parseJString g r2 with e | ⟨s2, r3⟩
            · simp [parseJString, he, hj, consStr] at h
            · simp only [parseJString, he, hj, consStr, Except.ok.injEq,
                Prod.mk.injEq] at h
              obtain ⟨rfl, rfl⟩ := h
              have he2 := parseEsc1_append l t ch r2 g (s2, r) he hj
              have hj2 := ih g2 r2 t s2 r hg hj
              simp [parseJString, List.cons_append, he2, hj2, consStr]
        · by_cases h3 : c.toNat < 32
          · simp [parseJString, h1, h2, h3] at h
          · rcases hj : parseJString g l with e | ⟨s2, r3⟩
            · simp [parseJString, h1, h2, h3, hj, consStr] at h
            · simp only [parseJString, h1, h2, h3, if_false, hj, consStr,
                Except.ok.injEq, Prod.mk.injEq] at h
              obtain ⟨rfl, rfl⟩ := h
              have hj2 := ih g2 l t s2 r3 hg hj
              simp [parseJString, h1, h2, h3, List.cons_append, hj2,
                consStr]

theorem length_le_append (a b : List Char) : a.length ≤ (a ++ b).length := by
  rw [List.length_append]
  exact Nat.le_add_right a.length b.length

theorem parseMembersF_extmono
    (pv pv2 : List Char → Except String (JVal × List Char)) (t : List Char)
    (hpv : ∀ l v r, pv l = .ok (v, r) → r ≠ [] →
      pv2 (l ++ t) = .ok (v, r ++ t)) (g : Nat) :
    ∀ g2 l ms r, g ≤ g2 → parseMembersF pv g l = .ok (ms, r) →
      parseMembersF pv2 g2 (l ++ t) = .ok (ms, r ++ t) := by
  induction g with
  | zero =>
    intro g2 l ms r hg h
    simp [parseMembersF] at h
  | succ g ih =>
    intro g2 l ms r hg h
    obtain ⟨g3, rfl⟩ : ∃ g3, g2 = g3 + 1 := ⟨g2 - 1, by omega⟩
    have hg3 : g ≤ g3 := by omega
    rcases hsw : skipWs l with _ | ⟨c, r0⟩
    · simp [parseMembersF, hsw] at h
    · have hsw2 := skipWs_append_cons l t c r0 hsw
      by_cases hc : c = '"'
      · subst hc
        rcases hkey : parseJString r0.length r0 with e | ⟨key, r2⟩
        · simp [parseMembersF, hsw, hkey] at h
        · have hkey2 := parseJString_extmono r0.length (r0 ++ t).length r0 t
            key r2 (length_le_append r0 t) hkey
          simp only [List.length_append] at hkey2
          rcases hsw3 : skipWs r2 with _ | ⟨c2, r3⟩
          · simp [parseMembersF, hsw, hkey, hsw3] at h
          · have hsw4 := skipWs_append_cons r2 t c2 r3 hsw3
            by_cases hcolon : c2 = ':'
            · subst hcolon
              rcases hval : pv r3 with e | ⟨v, r4⟩
              · simp [parseMembersF, hsw, hkey, hsw3, hval] at h
              · rcases hsw5 : skipWs r4 with _ | ⟨c3, r5⟩
                · simp [parseMembersF, hsw, hkey, hsw3, hval, hsw5] at h
                · have hr4ne : r4 ≠ [] := by
                    intro he
                    subst he
                    simp [skipWs] at hsw5
                  have hval2 := hpv r3 v r4 hval hr4ne
                  have hsw6 := skipWs_append_cons r4 t c3 r5 hsw5
                  by_cases hcomma : c3 = ','
                  · subst hcomma
                    rcases hrest : parseMembersF pv g r5 with e | ⟨ms2, r6⟩
                    · simp [parseMembersF, hsw, hkey, hsw3, hval, hsw5,
                        hrest] at h
                    · simp only [parseMembersF, hsw, hkey, hsw3, hval, hsw5,
                        hrest, eq_self_iff_true, if_true, Except.ok.injEq,
                        Prod.mk.injEq] at h
                      obtain ⟨rfl, rfl⟩ := h
                      have h2 := ih g3 r5 ms2 r6 hg3 hrest
                      simp [parseMembersF, hsw2, hkey2, hsw4, hval2, hsw6,
                        h2]
                  · by_cases hrb : c3 = rbrace
                    · subst hrb
                      simp only [parseMembersF, hsw, hkey, hsw3, hval, hsw5,
                        hcomma, if_false, eq_self_iff_true, if_true,
                        Except.ok.injEq, Prod.mk.injEq] at h
                      obtain ⟨rfl, rfl⟩ := h
                      simp [parseMembersF, hsw2, hkey2, hsw4, hval2, hsw6,
                        hcomma]
                    · simp [parseMembersF, hsw, hkey, hsw3, hval, hsw5,
                        hcomma, hrb] at h
            · simp [parseMembersF, hsw, hkey, hsw3, hcolon] at h
      · simp [parseMembersF, hsw, hc] at h

theorem parseElemsF_extmono
    (pv pv2 : List Char → Except String (JVal × List Char)) (t : List Char)
    (hpv : ∀ l v r, pv l = .ok (v, r) → r ≠ [] →
      pv2 (l ++ t) = .ok (v, r ++ t)) (g : Nat) :
    ∀ g2 l vs r, g ≤ g2 → parseElemsF pv g l = .ok (vs, r) →
      parseElemsF pv2 g2 (l ++ t) = .ok (vs, r ++ t) := by
  induction g with
  | zero =>
    intro g2 l vs r hg h
    simp [parseElemsF] at h
  | succ g ih =>
    intro g2 l vs r hg h
    obtain ⟨g3, rfl⟩ : ∃ g3, g2 = g3 + 1 := ⟨g2 - 1, by omega⟩
    have hg3 : g ≤ g3 := by omega
    rcases hval : pv l with e | ⟨v, r0⟩
    · simp [parseElemsF, hval] at h
    · rcases hsw : skipWs r0 with _ | ⟨c, r2⟩
      · simp [parseElemsF, hval, hsw] at h
      · have hr0ne : r0 ≠ [] := by
          intro he
          subst he
          simp [skipWs] at hsw
        have hval2 := hpv l v r0 hval hr0ne
        have hsw2 := skipWs_append_cons r0 t c r2 hsw
        by_cases hcomma : c = ','
        · subst hcomma
          rcases hrest : parseElemsF pv g r2 with e | ⟨vs2, r3⟩
          · simp [parseElemsF, hval, hsw, hrest] at h
          · simp only [parseElemsF, hval, hsw, hrest, eq_self_iff_true,
              if_true, Except.ok.injEq, Prod.mk.injEq] at h
            obtain ⟨rfl, rfl⟩ := h
            have h2 := ih g3 r2 vs2 r3 hg3 hrest
            simp [parseElemsF, hval2, hsw2, h2]
        · by_cases hrsq : c = ']'
          · subst hrsq
            simp only [parseElemsF, hval, hsw, hcomma, if_false,
              eq_self_iff_true, if_true, Except.ok.injEq,
              Prod.mk.injEq] at h
            obtain ⟨rfl, rfl⟩ := h
            simp [parseElemsF, hval2, hsw2, hcomma]
          · simp [parseElemsF, hval, hsw, hcomma, hrsq] at h

theorem parseVal_extmono (f : Nat) :
    ∀ f2 l t v r, f ≤ f2 → parseVal f l = .ok (v, r) →
      (selfDelim v = true ∨ r ≠ []) →
      parseVal f2 (l ++ t) = .ok (v, r ++ t) := by
  induction f with
  | zero =>
    intro f2 l t v r hf h hcond
    simp [parseVal] at h
  | succ g ih =>
    intro f2 l t v r hf h hcond
    obtain ⟨g2, rfl⟩ : ∃ g2, f2 = g2 + 1 := ⟨f2 - 1, by omega⟩
    have hg2 : g ≤ g2 := by omega
    have hpv : ∀ l1 v1 r1, parseVal g l1 = .ok (v1, r1) → r1 ≠ [] →
        parseVal g2 (l1 ++ t) = .ok (v1, r1 ++ t) :=
      fun l1 v1 r1 hh hne => ih g2 l1 t v1 r1 hg2 hh (Or.inr hne)
    rcases hsw : skipWs l with _ | ⟨c, r0⟩
    · simp [parseVal, hsw] at h
    · have hsw2 := skipWs_append_cons l t c r0 hsw
      by_cases hc1 : c = lbrace
      · subst hc1
        rcases hsw3 : skipWs r0 with _ | ⟨c2, r2⟩
        · simp [parseVal, hsw, hsw3] at h
        · have hsw4 := skipWs_append_cons r0 t c2 r2 hsw3
          by_cases hc2 : c2 = rbrace
          · simp only [parseVal, hsw, hsw3, eq_self_iff_true, if_true, hc2,
              Except.ok.injEq, Prod.mk.injEq] at h
            obtain ⟨rfl, rfl⟩ := h
            simp [parseVal, hsw2, hsw4, hc2]
          · rcases hms : parseMembersF (parseVal g) (r2.length + 1)
                (c2 :: r2) with e | ⟨ms, r3⟩
            · simp [parseVal, hsw, hsw3, hc2, hms] at h
            · simp only [parseVal, hsw, hsw3, eq_self_iff_true, if_true,
                hc2, if_false, List.length_cons, hms, Except.ok.injEq,
                Prod.mk.injEq] at h
              obtain ⟨rfl, rfl⟩ := h
              have h2 := parseMembersF_extmono (parseVal g) (parseVal g2) t
                hpv (r2.length + 1) (r2.length + t.length + 1) (c2 :: r2)
                ms r3 (by omega) hms
              simp only [List.cons_append] at h2
              simp [parseVal, hsw2, hsw4, hc2, h2]
      · by_cases hc2 : c = '['
        · subst hc2
          rcases hsw3 : skipWs r0 with _ | ⟨c2, r2⟩
          · simp [parseVal, hsw, hc1, hsw3] at h
          · have hsw4 := skipWs_append_cons r0 t c2 r2 hsw3
            by_cases hc3 : c2 = ']'
            · simp only [parseVal, hsw, hc1, if_false, eq_self_iff_true,
                if_true, hsw3, hc3, Except.ok.injEq, Prod.mk.injEq] at h
              obtain ⟨rfl, rfl⟩ := h
              simp [parseVal, hsw2, hc1, hsw4, hc3]
            · rcases hes : parseElemsF (parseVal g) (r2.length + 1)
                  (c2 :: r2) with e | ⟨vs, r3⟩
              · simp [parseVal, hsw, hc1, hsw3, hc3, hes] at h
              · simp only [parseVal, hsw, hc1, if_false, eq_self_iff_true,
                  if_true, hsw3, hc3, List.length_cons, hes,
                  Except.ok.injEq, Prod.mk.injEq] at h
                obtain ⟨rfl, rfl⟩ := h
                have h2 := parseElemsF_extmono (parseVal g) (parseVal g2) t
                  hpv (r2.length + 1) (r2.length + t.length + 1) (c2 :: r2)
                  vs r3 (by omega) hes
                simp only [List.cons_append] at h2
                simp [parseVal, hsw2, hc1, hsw4, hc3, h2]
        · by_cases hc3 : c = '"'
          · subst hc3
            rcases hstr : parseJString r0.length r0 with e | ⟨s2, r2⟩
            · simp [parseVal, hsw, hc1, hc2, hstr] at h
            · simp only [parseVal, hsw, hc1, hc2, if_false,
                eq_self_iff_true, if_true, hstr, Except.ok.injEq,
                Prod.mk.injEq] at h
              obtain ⟨rfl, rfl⟩ := h
              have h2 := parseJString_extmono r0.length (r0 ++ t).length r0
                t s2 r2 (length_le_append r0 t) hstr
              simp only [List.length_append] at h2
              simp [parseVal, hsw2, hc1, hc2, h2]
          · by_cases hc4 : c = 't'
            · subst hc4
              have h2 := expectLit_append ['r', 'u', 'e'] (.bool true) r0 t
                v r (by simpa [parseVal, hsw, hc1, hc2, hc3] using h)
              simp [parseVal, hsw2, hc1, hc2, hc3, h2]
            · by_cases hc5 : c = 'f'
              · subst hc5
                have h2 := expectLit_append ['a', 'l', 's', 'e']
                  (.bool false) r0 t v r
                  (by simpa [parseVal, hsw, hc1, hc2, hc3, hc4] using h)
                simp [parseVal, hsw2, hc1, hc2, hc3, hc4, h2]
              · by_cases hc6 : c = 'n'
                · subst hc6
                  have h2 := expectLit_append ['u', 'l', 'l'] .null r0 t v r
                    (by simpa [parseVal, hsw, hc1, hc2, hc3, hc4, hc5]
                      using h)
                  simp [parseVal, hsw2, hc1, hc2, hc3, hc4, hc5, h2]
                · by_cases hc7 : (c = '-' || c.isDigit) = true
                  · rcases hnb : parseNumber (c :: r0) with e | ⟨raw, r2⟩
                    · simp [parseVal, hsw, hc1, hc2, hc3, hc4, hc5, hc6,
                        hc7, hnb] at h
                    · simp only [parseVal, hsw, hc1, hc2, hc3, hc4, hc5,
                        hc6, if_false, hc7, if_true, hnb, Except.ok.injEq,
                        Prod.mk.injEq] at h
                      obtain ⟨rfl, rfl⟩ := h
                      have hrne : r2 ≠ [] := by
                        rcases hcond with hcond | hcond
                        · simp [selfDelim] at hcond
                        · exact hcond
                      have h2 := parseNumber_append (c :: r0) t raw r2 hnb
                        hrne
                      simp only [List.cons_append] at h2
                      simp [parseVal, hsw2, hc1, hc2, hc3, hc4, hc5, hc6,
                        hc7, h2]
                  · simp [parseVal, hsw, hc1, hc2, hc3, hc4, hc5, hc6,
                      hc7] at h

theorem decodeFirstValue_obj_append (b t : List Char)
    (ms : List (String × JVal)) (r : List Char)
    (h : decodeFirstValue b = .ok (.obj ms, r)) :
    decodeFirstValue (b ++ t) = .ok (.obj ms, r ++ t) := by
  unfold decodeFirstValue at h ⊢
  rcases hp : parseVal (b.length + 1) b with e | ⟨v, rest⟩
  · simp [hp] at h
  · rw [hp] at h
    rcases v with _ | bv | nv | sv | av | mv
    · simp only [selfDelim, Bool.false_eq_true, if_false] at h
      rcases rest with _ | ⟨c, rest2⟩
      · simp at h
      · by_cases hw : isWs c = true <;> simp [hw] at h
    · simp only [selfDelim, Bool.false_eq_true, if_false] at h
      rcases rest with _ | ⟨c, rest2⟩
      · simp at h
      · by_cases hw : isWs c = true <;> simp [hw] at h
    · simp only [selfDelim, Bool.false_eq_true, if_false] at h
      rcases rest with _ | ⟨c, rest2⟩
      · simp at h
      · by_cases hw : isWs c = true <;> simp [hw] at h
    · simp [selfDelim] at h
    · simp [selfDelim] at h
    · simp only [selfDelim, if_true, Except.ok.injEq, Prod.mk.injEq,
        JVal.obj.injEq] at h
      obtain ⟨rfl, rfl⟩ := h
      have hext := parseVal_extmono (b.length + 1) ((b ++ t).length + 1) b t
        _ _ (by simp [List.length_append]) hp (Or.inl rfl)
      rw [hext]
      simp [selfDelim]

theorem decodeTravelAgentInput_obj_append (b trail : String)
    (ms : List (String × JVal)) (r : List Char) (input : TravelAgentInput)
    (h : decodeFirstValue b.data = .ok (.obj ms, r))
    (h2 : decodeTravelAgentInput b = .ok input) :
    decodeTravelAgentInput (b ++ trail) = .ok input := by
  have h3 := decodeFirstValue_obj_append b.data trail.data ms r h
  simp only [decodeTravelAgentInput, h] at h2
  simp only [decodeTravelAgentInput, String.data_append, h3]
  exact h2

/-! ## The encoder output parses back to the one-member object

These lemmas show that `encodeResultBody t` — the exact bytes the gateway
writes on success — decodes as a JSON object with exactly the one member
`result` carrying exactly `t`.
-/

theorem escChar_length_pos (c : Char) : 1 ≤ (escChar c).length := by
  by_cases h1 : c = '"'
  · simp [escChar, h1]
  · by_cases h2 : c = '\\'
    · simp [escChar, h1, h2]
    · by_cases h3 : c = '\n'
      · simp [escChar, h1, h2, h3]
      · by_cases h4 : c = '\r'
        · simp [escChar, h1, h2, h3, h4]
        · by_cases h5 : c = '\t'
          · simp [escChar, h1, h2, h3, h4, h5]
          · by_cases h6 : c = '<'
            · simp [escChar, h1, h2, h3, h4, h5, h6]
            · by_cases h7 : c = '>'
              · simp [escChar, h1, h2, h3, h4, h5, h6, h7]
              · by_cases h8 : c = '&'
                · simp [escChar, h1, h2, h3, h4, h5, h6, h7, h8]
                · by_cases h9 : c.toNat < 32
                  · simp [escChar, h1, h2, h3, h4, h5, h6, h7, h8, h9]
                  · by_cases h10 : c.toNat = 8232
                    · simp [escChar, h1, h2, h3, h4, h5, h6, h7, h8, h9,
                        h10]
                    · by_cases h11 : c.toNat = 8233
                      · simp [escChar, h1, h2, h3, h4, h5, h6, h7, h8, h9,
                          h10, h11]
                      · simp [escChar, h1, h2, h3, h4, h5, h6, h7, h8, h9,
                          h10, h11]

theorem escChars_length_le (cs : List Char) :
    cs.length ≤ (escChars cs).length := by
  induction cs with
  | nil => simp [escChars]
  | cons c cs ih =>
    have h := escChar_length_pos c
    simp only [escChars, List.length_append, List.length_cons]
    omega

theorem hexVal_hexDigChar : ∀ n, n < 16 → hexVal (hexDigChar n) = some n := by
  decide

theorem parseJString_escChars (cs : List Char) :
    ∀ f rest, cs.length + 1 ≤ f →
      parseJString f (escChars cs ++ ('"' :: rest)) = .ok (cs, rest) := by
  induction cs with
  | nil =>
    intro f rest hf
    obtain ⟨g, rfl⟩ : ∃ g, f = g + 1 := ⟨f - 1, by omega⟩
    simp [escChars, parseJString]
  | cons c cs ih =>
    intro f rest hf
    obtain ⟨g, rfl⟩ : ∃ g, f = g + 1 := ⟨f - 1, by omega⟩
    have hg : cs.length + 1 ≤ g := by
      simp only [List.length_cons] at hf
      omega
    have hih := ih g rest hg
    by_cases h1 : c = '"'
    · subst h1
      simp [escChars, escChar, List.append_assoc, parseJString, parseEsc1,
        consStr, hih]
    · by_cases h2 : c = '\\'
      · subst h2
        simp [escChars, escChar, List.append_assoc, parseJString, parseEsc1,
          consStr, hih]
      · by_cases h3 : c = '\n'
        · subst h3
          simp [escChars, escChar, List.append_assoc, parseJString,
            parseEsc1, consStr, hih]
        · by_cases h4 : c = '\r'
          · subst h4
            simp [escChars, escChar, List.append_assoc, parseJString,
              parseEsc1, consStr, hih]
          · by_cases h5 : c = '\t'
            · subst h5
              simp [escChars, escChar, List.append_assoc, parseJString,
                parseEsc1, consStr, hih]
            · by_cases h6 : c = '<'
              · subst h6
                have hx : hex4 '0' '0' '3' 'c' = some 60 := by decide
                have hlt : Char.ofNat 60 = '<' := by decide
                simp [escChars, escChar, List.append_assoc, parseJString,
                  parseEsc1, consStr, hx, hlt, hih]
              · by_cases h7 : c = '>'
                · subst h7
                  have hx : hex4 '0' '0' '3' 'e' = some 62 := by decide
                  have hgt : Char.ofNat 62 = '>' := by decide
                  simp [escChars, escChar, List.append_assoc, parseJString,
                    parseEsc1, consStr, hx, hgt, hih]
                · by_cases h8 : c = '&'
                  · subst h8
                    have hx : hex4 '0' '0' '2' '6' = some 38 := by decide
                    have hamp : Char.ofNat 38 = '&' := by decide
                    simp [escChars, escChar, List.append_assoc, parseJString,
                      parseEsc1, consStr, hx, hamp, hih]
                  · by_cases h9 : c.toNat < 32
                    · have hv0 : hexVal '0' = some 0 := by decide
                      have hvA : hexVal (hexDigChar (c.toNat / 16)) =
                          some (c.toNat / 16) :=
                        hexVal_hexDigChar _ (by omega)
                      have hvB : hexVal (hexDigChar (c.toNat % 16)) =
                          some (c.toNat % 16) :=
                        hexVal_hexDigChar _ (Nat.mod_lt _ (by omega))
                      have hx : hex4 '0' '0' (hexDigChar (c.toNat / 16))
                          (hexDigChar (c.toNat % 16)) = some c.toNat := by
                        simp [hex4, hv0, hvA, hvB]
                        omega
                      have hns1 : ¬(55296 ≤ c.toNat ∧ c.toNat < 56320) := by
                        omega
                      have hns2 : ¬(56320 ≤ c.toNat ∧ c.toNat < 57344) := by
                        omega
                      simp [escChars, escChar, h1, h2, h3, h4, h5, h6, h7,
                        h8, h9, List.append_assoc, parseJString, parseEsc1,
                        consStr, hx, hns1, hns2, Char.ofNat_toNat, hih]
                    · by_cases h10 : c.toNat = 8232
                      · have hx : hex4 '2' '0' '2' '8' = some 8232 := by
                          decide
                        have hcc : Char.ofNat 8232 = c := by
                          rw [← h10, Char.ofNat_toNat]
                        simp [escChars, escChar, h1, h2, h3, h4, h5, h6, h7,
                          h8, h9, h10, List.append_assoc, parseJString,
                          parseEsc1, consStr, hx, hih]
                        exact hcc
                      · by_cases h11 : c.toNat = 8233
                        · have hx : hex4 '2' '0' '2' '9' = some 8233 := by
                            decide
                          have hcc : Char.ofNat 8233 = c := by
                            rw [← h11, Char.ofNat_toNat]
                          simp [escChars, escChar, h1, h2, h3, h4, h5, h6,
                            h7, h8, h9, h10, h11, List.append_assoc,
                            parseJString, parseEsc1, consStr, hx, hih]
                          exact hcc
                        · simp [escChars, escChar, h1, h2, h3, h4, h5, h6,
                            h7, h8, h9, h10, h11, List.append_assoc,
                            parseJString, consStr, hih]

theorem string_mk_data (s : String) : String.mk s.data = s := rfl

theorem parseVal_encodeResult (t : String) (f : Nat) :
    parseVal (f + 2) (encodeResultBody t).data =
      .ok (.obj [("result", .str t)], ['\n']) := by
  have hdata : (encodeResultBody t).data =
      lbrace :: '"' :: 'r' :: 'e' :: 's' :: 'u' :: 'l' :: 't' :: '"' :: ':' ::
        '"' :: (escChars t.data ++ ('"' :: rbrace :: '\n' :: [])) := by
    have hA : ("\x7b\"result\":" : String).data =
        lbrace :: '"' :: 'r' :: 'e' :: 's' :: 'u' :: 'l' :: 't' :: '"' ::
          ':' :: [] := rfl
    have hC : ("\x7d\n" : String).data = rbrace :: '\n' :: [] := rfl
    have hq : ("\"" : String).data = ['"'] := rfl
    simp [encodeResultBody, goQuote, String.data_append, hA, hC, hq]
    exact ⟨rfl, rfl⟩
  rw [hdata]
  have hws_lb : isWs lbrace = false := by decide
  have hws_rb : isWs rbrace = false := by decide
  have hne1 : ¬(('"' : Char) = rbrace) := by decide
  have hne2 : ¬(rbrace = ',') := by decide
  have hne3 : ¬(('"' : Char) = lbrace) := by decide
  have hws_q : isWs '"' = false := by decide
  have hws_colon : isWs ':' = false := by decide
  have hval2 : parseJString ((escChars t.data).length + 3)
      (escChars t.data ++ ('"' :: rbrace :: '\n' :: [])) =
      .ok (t.data, rbrace :: '\n' :: []) :=
    parseJString_escChars t.data _ _
      (by have := escChars_length_le t.data; omega)
  have hvv : parseVal (f + 1)
      ('"' :: (escChars t.data ++ ('"' :: rbrace :: '\n' :: []))) =
      .ok (.str t, rbrace :: '\n' :: []) := by
    simp [parseVal, skipWs, hws_q, hne3, List.length_append, hval2,
      string_mk_data]
  have hkey0 : escChars ('r' :: 'e' :: 's' :: 'u' :: 'l' :: 't' :: []) =
      'r' :: 'e' :: 's' :: 'u' :: 'l' :: 't' :: [] := rfl
  have hkey2 : parseJString ((escChars t.data).length + 12)
      ('r' :: 'e' :: 's' :: 'u' :: 'l' :: 't' :: '"' :: ':' :: '"' ::
        (escChars t.data ++ ('"' :: rbrace :: '\n' :: []))) =
      .ok ('r' :: 'e' :: 's' :: 'u' :: 'l' :: 't' :: [],
        ':' :: '"' :: (escChars t.data ++ ('"' :: rbrace :: '\n' :: []))) := by
    have h0 := parseJString_escChars ('r' :: 'e' :: 's' :: 'u' :: 'l' ::
      't' :: []) ((escChars t.data).length + 12)
      (':' :: '"' :: (escChars t.data ++ ('"' :: rbrace :: '\n' :: [])))
      (by simp)
    simpa [hkey0] using h0
  have hmem : parseMembersF (parseVal (f + 1))
      ((escChars t.data).length + 13)
      ('"' :: 'r' :: 'e' :: 's' :: 'u' :: 'l' :: 't' :: '"' :: ':' :: '"' ::
        (escChars t.data ++ ('"' :: rbrace :: '\n' :: []))) =
      .ok ([("result", .str t)], ['\n']) := by
    simp [parseMembersF, skipWs, hws_q, hws_colon, List.length_append,
      hkey2, hvv, hws_rb, hne2]
  rw [parseVal.eq_2]
  simp [skipWs, hws_lb, hws_q, hne1, List.length_append, hmem]

theorem decodeFirstValue_encodeResult (t : String) :
    decodeFirstValue (encodeResultBody t).data =
      .ok (.obj [("result", .str t)], ['\n']) := by
  unfold decodeFirstValue
  obtain ⟨g, hg⟩ : ∃ g, (encodeResultBody t).data.length + 1 = g + 2 := by
    refine ⟨(encodeResultBody t).data.length - 1, ?_⟩
    have : 1 ≤ (encodeResultBody t).data.length := by
      simp [encodeResultBody, String.data_append]
    omega
  rw [hg, parseVal_encodeResult t g]
  simp [selfDelim]

/-! ## Claim theorems -/

/-- C1: the claim says a POST body that is valid JSON but lacks the
`userQuery` field — the empty object in particular — is rejected with HTTP
400 and the flow is not invoked. The code does the opposite: `json.Decode`
into the struct accepts `\x7b\x7d`, leaving `userQuery` empty, and the
handler delegates to the flow and answers 200; this theorem evaluates the
embedded handler at that exact input. -/
theorem c1_empty_object_is_delegated :
    decodeTravelAgentInput "\x7b\x7d" = .ok { userQuery := "" } ∧
      handleTravelAgent
          (travelAgentFlow fun _ => .ok { text := "answer" }) "POST" "\x7b\x7d" =
        { status := 200, body := encodeResultBody "answer",
          collaboratorCalls := 1, bodyParseAttempted := true } :=
  ⟨rfl, rfl⟩

/-- C2: for every HTTP method other than POST, the handler answers 405
with the fixed message, does not attempt to decode the body, and never
invokes the flow, whatever the body holds. -/
theorem c2_non_post_rejected_without_parsing
    (flowRun : TravelAgentInput → Except String String × Nat)
    (method reqBody : String) (h : method ≠ "POST") :
    handleTravelAgent flowRun method reqBody =
      { status := 405, body := "Method not allowed\n",
        collaboratorCalls := 0, bodyParseAttempted := false } := by
  simp [handleTravelAgent, h]

theorem c2_witness :
    handleTravelAgent (fun _ => (.ok "x", 1)) "GET" "\x7bbroken" =
      { status := 405, body := "Method not allowed\n",
        collaboratorCalls := 0, bodyParseAttempted := false } :=
  c2_non_post_rejected_without_parsing (fun _ => (.ok "x", 1)) "GET" "\x7bbroken"
    (by decide)

/-- C3: the hotel tool answers the Savoy message for any casing of
"London", the Park Hyatt message for any casing of "Tokyo", the generic
fallback for every other destination (the empty string included), and
never returns an error. -/
theorem c3_hotel_tool_cases (d : String) :
    (toLowerGo d = "london" →
      suggestHotel d = .ok savoyMsg ∧ strContains savoyMsg "Savoy" = true) ∧
    (toLowerGo d = "tokyo" →
      suggestHotel d = .ok parkHyattMsg ∧
        strContains parkHyattMsg "Park Hyatt" = true) ∧
    (toLowerGo d ≠ "london" → toLowerGo d ≠ "tokyo" →
      suggestHotel d = .ok (hotelFallback d)) ∧
    ∃ out, suggestHotel d = .ok out := by
  refine ⟨fun h1 => ⟨by simp [suggestHotel, h1], by decide⟩,
    fun h2 => ⟨by simp [suggestHotel, h2], by decide⟩,
    fun h1 h2 => by simp [suggestHotel, h1, h2], ?_⟩
  unfold suggestHotel
  split
  · exact ⟨savoyMsg, rfl⟩
  · split
    · exact ⟨parkHyattMsg, rfl⟩
    · exact ⟨hotelFallback d, rfl⟩

theorem c3_witness :
    (suggestHotel "LoNdOn" = .ok savoyMsg ∧
      strContains savoyMsg "Savoy" = true) ∧
    (suggestHotel "TOKYO" = .ok parkHyattMsg ∧
      strContains parkHyattMsg "Park Hyatt" = true) ∧
    (suggestHotel "TO\u212AYO" = .ok parkHyattMsg ∧
      strContains parkHyattMsg "Park Hyatt" = true) ∧
    suggestHotel "Paris" = .ok (hotelFallback "Paris") ∧
    suggestHotel "" = .ok (hotelFallback "") :=
  ⟨(c3_hotel_tool_cases "LoNdOn").1 (by decide),
    (c3_hotel_tool_cases "TOKYO").2.1 (by decide),
    (c3_hotel_tool_cases "TO\u212AYO").2.1 (by decide),
    (c3_hotel_tool_cases "Paris").2.2.1 (by decide) (by decide),
    (c3_hotel_tool_cases "").2.2.1 (by decide) (by decide)⟩

/-- C4: for every pair of departure and arrival strings, the flight tool
succeeds with a message containing the departure, the arrival, and the
fixed price "$550". -/
theorem c4_flight_tool_output (dep arr : String) :
    ∃ out, searchFlights dep arr = .ok out ∧
      strContains out dep = true ∧ strContains out arr = true ∧
      strContains out "$550" = true := by
  refine ⟨_, rfl, ?_, ?_, ?_⟩
  · simp only [strContains, String.data_append, List.append_assoc]
    exact hasSub_mid dep.data "Found flights from ".data _
  · simp only [strContains, String.data_append, List.append_assoc]
    exact hasSub_append_left _ _ _ (hasSub_append_left _ _ _
      (hasSub_append_left _ _ _ (hasSub_self_append arr.data _)))
  · simp only [strContains, String.data_append, List.append_assoc]
    exact hasSub_append_left _ _ _ (hasSub_append_left _ _ _
      (hasSub_append_left _ _ _ (hasSub_append_left _ _ _ (by decide))))

/-- C5: both tool stubs are deterministic pure functions: identical inputs
give byte-identical outputs on repeated calls. -/
theorem c5_tools_deterministic (dep arr dep2 arr2 dest dest2 : String)
    (h1 : dep = dep2) (h2 : arr = arr2) (h3 : dest = dest2) :
    searchFlights dep arr = searchFlights dep2 arr2 ∧
      suggestHotel dest = suggestHotel dest2 := by
  subst h1; subst h2; subst h3; exact ⟨rfl, rfl⟩

theorem c5_witness :
    searchFlights "NYC" "LAX" = searchFlights "NYC" "LAX" ∧
      suggestHotel "Tokyo" = suggestHotel "Tokyo" :=
  c5_tools_deterministic "NYC" "LAX" "NYC" "LAX" "Tokyo" "Tokyo" rfl rfl rfl

/-- C7: when the collaborator call fails with error `e`, the flow returns
that very error after exactly one collaborator invocation (no retry), and
the gateway answers HTTP 500 with `e` surfaced verbatim (followed by the
newline `http.Error` always appends) as the plain-text body. -/
theorem c7_collaborator_error_propagated
    (execute : TravelAgentInput → Except String ModelResponse)
    (method reqBody : String) (input : TravelAgentInput) (e : String)
    (hm : method = "POST")
    (hd : decodeTravelAgentInput reqBody = .ok input)
    (he : execute input = .error e) :
    travelAgentFlow execute input = (.error e, 1) ∧
      handleTravelAgent (travelAgentFlow execute) method reqBody =
        { status := 500, body := e ++ "\n",
          collaboratorCalls := 1, bodyParseAttempted := true } := by
  subst hm
  refine ⟨by simp [travelAgentFlow, he], ?_⟩
  simp [handleTravelAgent, hd, travelAgentFlow, he]

theorem c7_witness :
    travelAgentFlow (fun _ => .error "model quota exceeded") { userQuery := "" } =
        (.error "model quota exceeded", 1) ∧
      handleTravelAgent (travelAgentFlow fun _ => .error "model quota exceeded")
          "POST" "\x7b\x7d" =
        { status := 500, body := "model quota exceeded" ++ "\n",
          collaboratorCalls := 1, bodyParseAttempted := true } :=
  c7_collaborator_error_propagated (fun _ => .error "model quota exceeded")
    "POST" "\x7b\x7d" { userQuery := "" } "model quota exceeded" rfl rfl rfl

/-- C8: for every query string, the user text handed to the collaborator is
exactly the fixed template prefix ("The user\x27s request is: ") followed
by the query, and the prompt-rendering function never fails. -/
theorem c8_prompt_template (q : String) :
    promptFn { userQuery := q } = .ok (promptPreamble ++ q) := rfl

/-- C10: for every destination that is neither "London" nor "Tokyo" up to
case, the fallback output echoes the destination verbatim between the fixed
apology prefix and a final period. -/
theorem c10_hotel_fallback_verbatim (d : String)
    (h1 : toLowerGo d ≠ "london") (h2 : toLowerGo d ≠ "tokyo") :
    suggestHotel d =
      .ok ("I" ++ apos ++ "m sorry, I don" ++ apos ++
        "t have a specific hotel recommendation for " ++ d ++ ".") := by
  simp [suggestHotel, h1, h2, hotelFallback]

theorem c10_witness :
    suggestHotel "Berlin" =
      .ok ("I" ++ apos ++ "m sorry, I don" ++ apos ++
        "t have a specific hotel recommendation for " ++ "Berlin" ++ ".") :=
  c10_hotel_fallback_verbatim "Berlin" (by decide) (by decide)

/-- C9: the gateway decodes only the first JSON value of the request body:
a POST body that is an acceptable JSON object followed by arbitrary trailing
bytes (well-formed or not) decodes to the same input and is handled exactly
like the body without the trailing bytes — delegated, not rejected with
HTTP 400. -/
theorem c9_trailing_bytes_accepted (b trail : String)
    (ms : List (String × JVal)) (r : List Char) (input : TravelAgentInput)
    (flowRun : TravelAgentInput → Except String String × Nat)
    (hobj : decodeFirstValue b.data = .ok (.obj ms, r))
    (hok : decodeTravelAgentInput b = .ok input) :
    decodeTravelAgentInput (b ++ trail) = .ok input ∧
      handleTravelAgent flowRun "POST" (b ++ trail) =
        handleTravelAgent flowRun "POST" b ∧
      (handleTravelAgent flowRun "POST" (b ++ trail)).status ≠ 400 := by
  have hd := decodeTravelAgentInput_obj_append b trail ms r input hobj hok
  refine ⟨hd, by simp [handleTravelAgent, hd, hok], ?_⟩
  simp only [handleTravelAgent, hd]
  rcases flowRun input with ⟨res, n⟩
  cases res <;> simp

theorem c9_witness :
    decodeTravelAgentInput ("\x7b\"userQuery\":\"hi\"\x7d" ++ "][ not json") =
        .ok { userQuery := "hi" } ∧
      handleTravelAgent (fun _ => (.ok "done", 1)) "POST"
          ("\x7b\"userQuery\":\"hi\"\x7d" ++ "][ not json") =
        handleTravelAgent (fun _ => (.ok "done", 1)) "POST"
          "\x7b\"userQuery\":\"hi\"\x7d" ∧
      (handleTravelAgent (fun _ => (.ok "done", 1)) "POST"
          ("\x7b\"userQuery\":\"hi\"\x7d" ++ "][ not json")).status ≠ 400 :=
  c9_trailing_bytes_accepted "\x7b\"userQuery\":\"hi\"\x7d" "][ not json"
    [("userQuery", .str "hi")] [] { userQuery := "hi" }
    (fun _ => (.ok "done", 1)) rfl rfl

/-- C6: whenever the flow returns successfully with text `t`, the gateway
answers HTTP 200 with a body that is the JSON object with exactly one
field, `result`, whose value is `t` (plus the newline the encoder always
appends): decoding the body gives back exactly that one-member object. -/
theorem c6_success_response
    (execute : TravelAgentInput → Except String ModelResponse)
    (method reqBody : String) (input : TravelAgentInput) (t : String)
    (hm : method = "POST")
    (hd : decodeTravelAgentInput reqBody = .ok input)
    (he : execute input = .ok { text := t }) :
    handleTravelAgent (travelAgentFlow execute) method reqBody =
      { status := 200, body := encodeResultBody t,
        collaboratorCalls := 1, bodyParseAttempted := true } ∧
    decodeFirstValue (encodeResultBody t).data =
      .ok (.obj [("result", .str t)], ['\n']) := by
  subst hm
  refine ⟨?_, decodeFirstValue_encodeResult t⟩
  simp [handleTravelAgent, hd, travelAgentFlow, he]

theorem c6_witness :
    handleTravelAgent
        (travelAgentFlow fun _ => .ok { text := "Trip booked" }) "POST"
        "\x7b\"userQuery\":\"book\"\x7d" =
      { status := 200, body := encodeResultBody "Trip booked",
        collaboratorCalls := 1, bodyParseAttempted := true } ∧
    decodeFirstValue (encodeResultBody "Trip booked").data =
      .ok (.obj [("result", .str "Trip booked")], ['\n']) :=
  c6_success_response (fun _ => .ok { text := "Trip booked" }) "POST"
    "\x7b\"userQuery\":\"book\"\x7d" { userQuery := "book" } "Trip booked"
    rfl rfl rfl

end TravelAgent
